import Mathlib

/-!
Verification development for the duck-tools repository: a browser CSV/SQL
tool whose core is a tabular query engine over named in-memory tables,
wrapped by a `DuckDBManager` facade (js/results-table.js concatenation) and
complemented by a `CSVExporter` (appended to WASM_IMPLEMENTATION.md).

The exporter and the manager facade are translated from their JavaScript
sources.  The simple CSV query processor itself lives inline in the
repository's index.html, which is not among the staged files; those
definitions are modelled from the specification (sections 3, 4.1, 6, 7 of
spec.md) and are marked `Modelled from the spec:` in their doc comments.
-/

/-- Modelled from the spec: section 3 and design note 9 describe a row value
as a tagged variant - string, number, boolean, or an explicit null marker
(the missing index.html processor stores these loosely typed JS values).
Numbers are modelled as exact rationals to capture decimal CSV numerics. -/
inductive Value where
  | str (s : String)
  | num (q : ℚ)
  | bool (b : Bool)
  | null
deriving DecidableEq

/-- A record is one row's values addressable by column name, modelled as an
insertion-ordered association list (spec section 6: result records are
insertion-ordered key/value maps). -/
abbrev Record := List (String × Value)

/-- First binding of a key in an association list (JS object property read:
present keys are unique in a JS object, so the first binding is the value). -/
def lookupAssoc {α : Type} : List (String × α) → String → Option α
  | [], _ => none
  | (k, v) :: rest, n => if k == n then some v else lookupAssoc rest n

/-- Membership test on a list of strings, returning a Bool. -/
def memb (c : String) : List String → Bool
  | [] => false
  | x :: rest => x == c || memb c rest

/-- Character membership in a string, as JavaScript's
`stringValue.includes(c)` for a one-character needle. -/
def containsChar (s : String) (c : Char) : Bool :=
  s.data.any (fun d => d == c)

/-- Canonical rendering of a rational, used to model JavaScript's
`String(value)` on a number: integers print without a denominator. -/
def ratStr (q : ℚ) : String :=
  if q.den = 1 then toString q.num else toString q.num ++ "/" ++ toString q.den

/-- JavaScript `String(value)` coercion on a row value (`null` is handled
before this conversion everywhere it matters, but we render it as the empty
string, matching the spec's "absence and null both serialize to empty"). -/
def valueStr : Value → String
  | .str s => s
  | .num q => ratStr q
  | .bool b => if b then "true" else "false"
  | .null => ""

/-- Accumulate decimal digits into a natural number. -/
def digitsToNat (ds : List Char) : Nat :=
  ds.foldl (fun a c => a * 10 + (c.toNat - 48)) 0

/-- A nonempty all-digit character list. -/
def isDigits (ds : List Char) : Bool :=
  !ds.isEmpty && ds.all (fun c => c.isDigit)

/-- Parse an unsigned decimal numeral, with an optional fractional part,
into a rational. -/
def parseDecimal (cs : List Char) : Option ℚ :=
  match cs.splitOn '.' with
  | [ip] => if isDigits ip then some ((digitsToNat ip : ℚ)) else none
  | [ip, fp] =>
      if isDigits ip && isDigits fp then
        some ((digitsToNat ip : ℚ) + (digitsToNat fp : ℚ) / ((10 : ℚ) ^ fp.length))
      else none
  | _ => none

/-- Modelled from the spec: section 4.1 compares values numerically exactly
when both sides "parse as numbers"; this is the strict decimal parse used
for that test (optional leading minus, digits, optional fraction). -/
def parseNum (s : String) : Option ℚ :=
  match s.data with
  | '-' :: rest => (parseDecimal rest).map (fun q => -q)
  | cs => parseDecimal cs

/-- Numeric view of a value for the section 4.1 disambiguation rule: a
number is itself, a string is its strict decimal parse, booleans and null
do not parse as numbers. -/
def toNum : Value → Option ℚ
  | .num q => some q
  | .str s => parseNum s
  | .bool _ => none
  | .null => none

section Exporter

/-!
`CSVExporter`, translated from js/csv-exporter.js (staged at the tail of
src/WASM_IMPLEMENTATION.md).  A JS argument that may be `null`/`undefined`
is modelled as an `Option`; a missing object key (JS `undefined`) as a
`none` lookup; a thrown `Error` as `Except.error` carrying the message.
-/

/-- Double every double-quote character, as the JavaScript
`stringValue.replace(/"/g, '""')` global replacement. -/
def doubleQuotes (s : String) : String :=
  ⟨s.data.flatMap (fun c => if c == '"' then ['"', '"'] else [c])⟩

/-- `CSVExporter.formatCSVValue`: null/undefined become the empty string;
otherwise the value is stringified and wrapped in double quotes (with inner
quotes doubled) exactly when it contains a comma, a double quote, a newline
or a carriage return. -/
def formatCSVValue (v : Option Value) : String :=
  match v with
  | none => ""
  | some .null => ""
  | some w =>
    let s := valueStr w
    if containsChar s ',' || containsChar s '"' ||
        containsChar s '\n' || containsChar s '\r' then
      "\"" ++ doubleQuotes s ++ "\""
    else s

/-- `CSVExporter.formatCSVRow`: `values.join(',')`. -/
def formatCSVRow (values : List String) : String :=
  String.intercalate "," values

/-- `CSVExporter.convertToCSV`: empty or missing input yields the empty
string; otherwise the keys of the first record form the header row and each
record contributes one newline-terminated row of escaped values, accumulated
left to right as the JS `forEach` does. -/
def convertToCSV (data : Option (List Record)) : String :=
  match data with
  | none => ""
  | some [] => ""
  | some (first :: rest) =>
    let headers := first.map Prod.fst
    let start := formatCSVRow headers ++ "\n"
    (first :: rest).foldl
      (fun csv row =>
        csv ++ formatCSVRow (headers.map (fun h => formatCSVValue (lookupAssoc row h))) ++ "\n")
      start

/-- `CSVExporter.exportToCSV`: empty or missing input throws
`No data to export`, re-wrapped by the surrounding catch as
`Export failed: ...`; otherwise the converted CSV text is handed to the
download helper, modelled here as the success payload. -/
def exportToCSV (data : Option (List Record)) (filename : String) : Except String String :=
  match data with
  | none => .error ("Export failed: " ++ "No data to export")
  | some [] => .error ("Export failed: " ++ "No data to export")
  | some d =>
    let _ := filename
    .ok (convertToCSV (some d))

/-- A line-break character in the sense of spec section 6 ("a line break"):
newline or carriage return. -/
def isLineBreak (c : Char) : Bool :=
  c == '\n' || c == '\r'

/-- Modelled from the spec: section 6's escaping rule, written from its
words - wrap in double quotes whenever the value contains the field
delimiter, a double quote, or a line break, doubling embedded double
quotes; null/undefined serialize to the empty string. -/
def refEscape (delim : Char) (v : Option Value) : String :=
  match v with
  | none => ""
  | some .null => ""
  | some w =>
    let s := valueStr w
    if containsChar s delim || containsChar s '"' || s.data.any isLineBreak then
      "\"" ++ doubleQuotes s ++ "\""
    else s

/-- Modelled from the spec: section 6's reference serialization - the
header row lists all keys of the first record joined by the delimiter, and
every row (including the final one) is newline-terminated. -/
def refSerialize (delim : Char) (data : List Record) : String :=
  match data with
  | [] => ""
  | first :: rest =>
    let keys := first.map Prod.fst
    String.intercalate (String.mk [delim]) keys ++ "\n" ++
      String.join ((first :: rest).map (fun row =>
        String.intercalate (String.mk [delim])
          (keys.map (fun k => refEscape delim (lookupAssoc row k))) ++ "\n"))

end Exporter

section Engine

/-!
The tabular query engine.  Modelled from the spec: the simple CSV processor
that implements it is inline in the repository's index.html, which is not
among the staged files; sections 3, 4.1 and 7 of spec.md define its data
model, operations, comparison semantics and error taxonomy, and design note
9 directs a typed AST `SelectStatement {columns, table, predicate?, limit?}`
for queries.
-/

/-- A named table: a fixed ordered column schema and an ordered row list
(spec section 3). -/
structure Table where
  columns : List String
  rows : List Record
deriving DecidableEq

/-- The engine state: the registry of named tables in insertion order
(spec section 3: names are unique at any point in time; we model the
registry abstractly as an association list and remove every binding of a
name on drop, which coincides with JS `Map` deletion on states satisfying
the uniqueness invariant). -/
structure Engine where
  tables : List (String × Table)
deriving DecidableEq

/-- The engine with no tables. -/
def emptyEngine : Engine := ⟨[]⟩

/-- Table lookup by exact (case-sensitive) name. -/
def lookupTable (e : Engine) (n : String) : Option Table :=
  lookupAssoc e.tables n

/-- Replace the first binding of a name, or append a new one. -/
def upsert (n : String) (t : Table) : List (String × Table) → List (String × Table)
  | [] => [(n, t)]
  | (m, u) :: rest => if m == n then (n, t) :: rest else (m, u) :: upsert n t rest

/-- Modelled from the spec: `createTable` registers or replaces the named
table; replacement raises no error (re-upload semantics). -/
def createTable (e : Engine) (n : String) (cols : List String) (rows : List Record) : Engine :=
  ⟨upsert n ⟨cols, rows⟩ e.tables⟩

/-- Modelled from the spec: `dropTable` removes the named table if present
and is a silent no-op otherwise. -/
def dropTable (e : Engine) (n : String) : Engine :=
  ⟨e.tables.filter (fun p => !(p.1 == n))⟩

/-- Modelled from the spec: `listTables` returns the registered names in
insertion order. -/
def listTables (e : Engine) : List String :=
  e.tables.map Prod.fst

/-- The engine's error taxonomy (spec section 7). -/
inductive ErrKind where
  | parseError
  | unknownTable
  | unknownColumn
  | invalidLimit
deriving DecidableEq

/-- A query failure: a kind together with a human-readable message naming
the offending table or column (spec section 7). -/
structure QueryError where
  kind : ErrKind
  message : String
deriving DecidableEq

/-- Modelled from the spec: `getRowCount` fails with `UnknownTable` when the
name is not registered. -/
def getRowCount (e : Engine) (n : String) : Except QueryError Nat :=
  match lookupTable e n with
  | none => .error ⟨.unknownTable, "Unknown table: " ++ n⟩
  | some t => .ok t.rows.length

/-- Comparison operators of the restricted grammar (spec section 4.1). -/
inductive CmpOp where
  | eq
  | ne
  | gt
  | lt
  | ge
  | le
deriving DecidableEq

/-- One comparison `column op literal` of a WHERE predicate. -/
structure Condition where
  col : String
  op : CmpOp
  lit : Value
deriving DecidableEq

/-- The projection of a query: all columns, or an explicit column list. -/
inductive Proj where
  | star
  | cols (cs : List String)
deriving DecidableEq

/-- Modelled from the spec: design note 9's typed query AST
`SelectStatement {columns, table, predicate?, limit?}`; the predicate is a
conjunction of comparisons, the limit a (parse-validated) natural number. -/
structure SelectStatement where
  proj : Proj
  table : String
  pred : Option (List Condition)
  limit : Option Nat
deriving DecidableEq

/-- Compare two rationals under an operator. -/
def numCmp : CmpOp → ℚ → ℚ → Bool
  | .eq, a, b => decide (a = b)
  | .ne, a, b => decide (a ≠ b)
  | .gt, a, b => decide (b < a)
  | .lt, a, b => decide (a < b)
  | .ge, a, b => decide (b ≤ a)
  | .le, a, b => decide (a ≤ b)

/-- Compare two strings case-sensitively under an operator. -/
def strCmp : CmpOp → String → String → Bool
  | .eq, a, b => a == b
  | .ne, a, b => !(a == b)
  | .gt, a, b => decide (b < a)
  | .lt, a, b => decide (a < b)
  | .ge, a, b => decide (b ≤ a)
  | .le, a, b => decide (a ≤ b)

/-- Modelled from the spec: the section 4.1 disambiguation rule - when both
the stored value and the literal parse as numbers compare numerically,
otherwise compare as case-sensitive strings. -/
def evalCmp (stored : Value) (op : CmpOp) (lit : Value) : Bool :=
  match toNum stored, toNum lit with
  | some a, some b => numCmp op a b
  | _, _ => strCmp op (valueStr stored) (valueStr lit)

/-- The stored value of a column in a row; a missing binding is the null
marker (spec section 3: absence and null are equivalent). -/
def getVal (r : Record) (c : String) : Value :=
  (lookupAssoc r c).getD .null

/-- One comparison of a predicate, evaluated on a row. -/
def condHolds (r : Record) (c : Condition) : Bool :=
  evalCmp (getVal r c.col) c.op c.lit

/-- A row passes an optional predicate when every conjunct holds (standard
boolean AND semantics, spec section 4.1). -/
def rowMatches (r : Record) : Option (List Condition) → Bool
  | none => true
  | some cs => cs.all (condHolds r)

/-- The columns an optional predicate references. -/
def predCols : Option (List Condition) → List String
  | none => []
  | some cs => cs.map (fun c => c.col)

/-- The columns a projection references explicitly (`*` references none by
name). -/
def projList : Proj → List String
  | .star => []
  | .cols cs => cs

/-- The columns a statement references: the explicit projection list and
every predicate column (spec section 7: `UnknownColumn` covers projection
and predicate references). -/
def refCols (s : SelectStatement) : List String :=
  projList s.proj ++ predCols s.pred

/-- The output column list of a projection: all schema columns in source
order for `*`, else the listed columns in listed order (spec section 4.1). -/
def projCols : Proj → List String → List String
  | .star, schema => schema
  | .cols cs, _ => cs

/-- Build a fresh output record carrying the given columns of a stored row
(spec section 5: results are freshly constructed records, not aliases). -/
def projectRecord (cols : List String) (r : Record) : Record :=
  cols.map (fun c => (c, getVal r c))

/-- First referenced column absent from the schema, if any. -/
def missingCol (s : SelectStatement) (schema : List String) : Option String :=
  (refCols s).find? (fun c => !(memb c schema))

/-- Truncate a result list by an optional `LIMIT` (spec section 4.1:
applied after `WHERE` filtering). -/
def applyLimit (lim : Option Nat) (l : List Record) : List Record :=
  match lim with
  | none => l
  | some n => l.take n

/-- Modelled from the spec: query evaluation (section 4.1) - resolve the
table (`UnknownTable` naming it when absent), check every referenced column
(`UnknownColumn` naming the first offender), filter rows by the predicate,
truncate by the limit after filtering, and project each surviving row. -/
def evalQuery (e : Engine) (s : SelectStatement) : Except QueryError (List Record) :=
  match lookupTable e s.table with
  | none => .error ⟨.unknownTable, "Unknown table: " ++ s.table⟩
  | some tbl =>
    match missingCol s tbl.columns with
    | some c => .error ⟨.unknownColumn, "Unknown column: " ++ c⟩
    | none =>
      let filtered := tbl.rows.filter (fun r => rowMatches r s.pred)
      .ok ((applyLimit s.limit filtered).map (projectRecord (projCols s.proj tbl.columns)))

/-- The engine's operations, as a single step interface (spec section 4.1's
operation list, minus the string-parsing front end: queries arrive as the
typed AST of design note 9). -/
inductive EngOp where
  | create (n : String) (cols : List String) (rows : List Record)
  | drop (n : String)
  | query (s : SelectStatement)
  | list
  | rowCount (n : String)
deriving DecidableEq

/-- Results of engine operations. -/
inductive EngOut where
  | name (n : String)
  | unit
  | rows (rs : List Record)
  | names (ns : List String)
  | count (k : Nat)
deriving DecidableEq

/-- Modelled from the spec: the engine step relation - table creation and
drop update the registry, while queries, listing and row counts leave it
untouched (section 4.1: `runQuery` is side-effect-free). -/
def engStep (e : Engine) : EngOp → Engine × Except QueryError EngOut
  | .create n cols rows => (createTable e n cols rows, .ok (.name n))
  | .drop n => (dropTable e n, .ok .unit)
  | .query s => (e, (evalQuery e s).map .rows)
  | .list => (e, .ok (.names (listTables e)))
  | .rowCount n => (e, (getRowCount e n).map .count)

end Engine

section Facade

/-!
`DuckDBManager`, translated from the DuckDBManager class in the staged
js/results-table.js concatenation.  In "simple mode" `this.db` and
`this.conn` both point at the inline CSV processor (our `Engine`); before
`initialize()` they are `null`, modelled as `none`.  A thrown `Error` is
`Except.error` carrying the message; every guarded method begins with
`if (!this.isInitialized) throw new Error('DuckDB not initialized')` and
only then touches the database, so a guarded failure leaves the manager
untouched.
-/

/-- The manager's mutable fields: `db`, `conn` and `isInitialized`. -/
structure Manager where
  db : Option Engine
  conn : Option Engine
  isInitialized : Bool
deriving DecidableEq

/-- The manager operations modelled here (all public methods except
`initialize`, whose success depends on the host page's globals).  `loadCSV`
carries the already-parsed header and rows, per the spec's ingestion
boundary (section 6): CSV text decoding is the File Ingestor's job. -/
inductive MgrOp where
  | loadCSV (n : String) (cols : List String) (rows : List Record)
  | runQuery (s : SelectStatement)
  | listTables
  | getRowCount (n : String)
  | dropTable (n : String)
  | getTableInfo (n : String)
  | getStats
  | close
deriving DecidableEq

/-- Results of manager operations. -/
inductive MgrOut where
  | name (n : String)
  | rows (rs : List Record)
  | names (ns : List String)
  | count (k : Nat)
  | info (cols : List String)
  | stats (tables totalRows : Nat)
  | unit
deriving DecidableEq

/-- Whether a method starts with the `DuckDB not initialized` guard
(`close` and `getStats` do not: `close` always runs, `getStats` returns
zeroed statistics on an uninitialized manager). -/
def guarded : MgrOp → Bool
  | .close => false
  | .getStats => false
  | _ => true

/-- `DuckDBManager.getTableInfo` body: read the table from the processor's
storage and report its column names from the first row (an absent or empty
table yields the empty list). -/
def tableInfo (e : Engine) (n : String) : List String :=
  match lookupTable e n with
  | none => []
  | some t =>
    match t.rows with
    | [] => []
    | first :: _ => first.map Prod.fst

/-- `DuckDBManager.getStats` body when initialized: the table count and the
sum of each listed table's row count. -/
def statsOf (e : Engine) : Nat × Nat :=
  ((listTables e).length,
    ((listTables e).map (fun n =>
      match getRowCount e n with
      | .ok k => k
      | .error _ => 0)).sum)

/-- One manager call, translated method by method from js/results-table.js:
each guarded method throws `DuckDB not initialized` untouched when the flag
is down; otherwise it delegates to the engine, re-wrapping an engine error
message with the method's catch prefix (`SQL Error: `, `Failed to get row
count: `, ...).  A `null` database after the guard is unreachable in the
source (initialize sets it) and surfaces here as the same wrapped error a
JS null dereference would reach the catch with. -/
def mgrStep (m : Manager) : MgrOp → Manager × Except String MgrOut
  | .loadCSV n cols rows =>
    if !m.isInitialized then (m, .error "DuckDB not initialized")
    else
      match m.db with
      | none => (m, .error ("Failed to load CSV: " ++ "null database"))
      | some e => ({ m with db := some (createTable e n cols rows) }, .ok (.name n))
  | .runQuery s =>
    if !m.isInitialized then (m, .error "DuckDB not initialized")
    else
      match m.db with
      | none => (m, .error ("SQL Error: " ++ "null database"))
      | some e =>
        match evalQuery e s with
        | .ok rs => (m, .ok (.rows rs))
        | .error qe => (m, .error ("SQL Error: " ++ qe.message))
  | .listTables =>
    if !m.isInitialized then (m, .error "DuckDB not initialized")
    else
      match m.db with
      | none => (m, .error ("Failed to list tables: " ++ "null database"))
      | some e => (m, .ok (.names (listTables e)))
  | .getRowCount n =>
    if !m.isInitialized then (m, .error "DuckDB not initialized")
    else
      match m.db with
      | none => (m, .error ("Failed to get row count: " ++ "null database"))
      | some e =>
        match getRowCount e n with
        | .ok k => (m, .ok (.count k))
        | .error qe => (m, .error ("Failed to get row count: " ++ qe.message))
  | .dropTable n =>
    if !m.isInitialized then (m, .error "DuckDB not initialized")
    else
      match m.db with
      | none => (m, .error ("Failed to drop table: " ++ "null database"))
      | some e => ({ m with db := some (dropTable e n) }, .ok .unit)
  | .getTableInfo n =>
    if !m.isInitialized then (m, .error "DuckDB not initialized")
    else
      match m.db with
      | none => (m, .error ("Failed to get table info: " ++ "null database"))
      | some e => (m, .ok (.info (tableInfo e n)))
  | .getStats =>
    if !m.isInitialized then (m, .ok (.stats 0 0))
    else
      match m.db with
      | none => (m, .ok (.stats 0 0))
      | some e => (m, .ok (.stats (statsOf e).1 (statsOf e).2))
  | .close => (⟨none, none, false⟩, .ok .unit)

end Facade

section Lemmas

/-- `String.join` peels off its head summand. -/
theorem string_join_cons (a : String) (l : List String) :
    String.join (a :: l) = a ++ String.join l := by
  apply String.ext
  simp [String.join_eq, String.data_append]

/-- Appending-fold of newline-terminated chunks equals the initial string
followed by the joined chunks. -/
theorem foldl_append_eq_join {α : Type} (f : α → String) :
    ∀ (l : List α) (init : String),
      l.foldl (fun acc x => acc ++ f x ++ "\n") init =
        init ++ String.join (l.map (fun x => f x ++ "\n")) := by
  intro l
  induction l with
  | nil =>
    intro init
    simp [String.join]
  | cons x xs ih =>
    intro init
    simp only [List.foldl_cons, List.map_cons, ih, string_join_cons]
    apply String.ext
    simp [String.data_append, List.append_assoc]

/-- Scanning for either line-break character equals scanning for each. -/
theorem any_isLineBreak_eq (l : List Char) :
    l.any isLineBreak = (l.any (fun d => d == '\n') || l.any (fun d => d == '\r')) := by
  induction l with
  | nil => rfl
  | cons c cs ih =>
    simp only [List.any_cons, ih, isLineBreak]
    cases c == '\n' <;> cases c == '\r' <;>
      cases cs.any (fun d => d == '\n') <;> cases cs.any (fun d => d == '\r') <;> rfl

/-- The spec's escaping rule at delimiter `,` coincides with the exporter's
`formatCSVValue`. -/
theorem refEscape_comma_eq_formatCSVValue (v : Option Value) :
    refEscape ',' v = formatCSVValue v := by
  match v with
  | none => rfl
  | some .null => rfl
  | some (.str s) | some (.num q) | some (.bool b) =>
    simp only [refEscape, formatCSVValue, containsChar, any_isLineBreak_eq, Bool.or_assoc]

/-- `memb` decides list membership of a string. -/
theorem memb_eq_true_iff {c : String} : ∀ {l : List String}, memb c l = true ↔ c ∈ l := by
  intro l
  induction l with
  | nil => simp [memb]
  | cons x xs ih =>
    simp only [memb, Bool.or_eq_true, beq_iff_eq, ih, List.mem_cons]
    exact or_congr eq_comm Iff.rfl

/-- Looking a key up after filtering out all of its bindings fails. -/
theorem lookupAssoc_filter_self {α : Type} (n : String) :
    ∀ (l : List (String × α)), lookupAssoc (l.filter (fun p => !(p.1 == n))) n = none := by
  intro l
  induction l with
  | nil => rfl
  | cons p rest ih =>
    by_cases h : p.1 = n
    · simp [List.filter_cons, h, ih]
    · have hb : (p.1 == n) = false := beq_eq_false_iff_ne.mpr h
      simp [List.filter_cons, hb, lookupAssoc, ih]

/-- A name absent from the keys is untouched by the drop filter. -/
theorem filter_ne_of_not_mem {α : Type} (n : String) :
    ∀ (l : List (String × α)), n ∉ l.map Prod.fst →
      l.filter (fun p => !(p.1 == n)) = l := by
  intro l
  induction l with
  | nil => intro _; rfl
  | cons p rest ih =>
    intro h
    simp only [List.map_cons, List.mem_cons, not_or] at h
    have hb : (p.1 == n) = false := beq_eq_false_iff_ne.mpr (fun he => h.1 he.symm)
    simp [List.filter_cons, hb, ih h.2]

/-- The drop filter is idempotent. -/
theorem filter_ne_idem {α : Type} (n : String) (l : List (String × α)) :
    (l.filter (fun p => !(p.1 == n))).filter (fun p => !(p.1 == n)) =
      l.filter (fun p => !(p.1 == n)) := by
  apply List.filter_eq_self.mpr
  intro a ha
  exact (List.mem_filter.mp ha).2

/-- Upserting a binding makes it the one `lookupAssoc` finds. -/
theorem lookupAssoc_upsert (n : String) (t : Table) :
    ∀ (l : List (String × Table)), lookupAssoc (upsert n t l) n = some t := by
  intro l
  induction l with
  | nil => simp [upsert, lookupAssoc]
  | cons p rest ih =>
    by_cases h : p.1 = n
    · have hb : (p.1 == n) = true := beq_iff_eq.mpr h
      simp [upsert, hb, lookupAssoc]
    · have hb : (p.1 == n) = false := beq_eq_false_iff_ne.mpr h
      simp [upsert, hb, lookupAssoc, ih]

/-- Upserting a binding puts its key among the keys. -/
theorem mem_keys_upsert (n : String) (t : Table) :
    ∀ (l : List (String × Table)), n ∈ (upsert n t l).map Prod.fst := by
  intro l
  induction l with
  | nil => simp [upsert]
  | cons p rest ih =>
    by_cases h : p.1 = n
    · have hb : (p.1 == n) = true := beq_iff_eq.mpr h
      simp [upsert, hb]
    · have hb : (p.1 == n) = false := beq_eq_false_iff_ne.mpr h
      simp only [upsert, hb, Bool.false_eq_true, if_false, List.map_cons, List.mem_cons]
      exact Or.inr ih

end Lemmas

section EngineLemmas

/-- A key is absent from an association list exactly when lookup fails. -/
theorem lookupAssoc_eq_none_iff {α : Type} (n : String) :
    ∀ (l : List (String × α)), lookupAssoc l n = none ↔ n ∉ l.map Prod.fst := by
  intro l
  induction l with
  | nil => simp [lookupAssoc]
  | cons p rest ih =>
    by_cases h : p.1 = n
    · have hb : (p.1 == n) = true := beq_iff_eq.mpr h
      simp [lookupAssoc, hb, h]
    · have hb : (p.1 == n) = false := beq_eq_false_iff_ne.mpr h
      have step : lookupAssoc (p :: rest) n = lookupAssoc rest n := by
        simp [lookupAssoc, hb]
      rw [step, ih, List.map_cons]
      constructor
      · intro hn hmem
        cases List.mem_cons.mp hmem with
        | inl he => exact h he.symm
        | inr hm => exact hn hm
      · intro hn hm
        exact hn (List.mem_cons_of_mem _ hm)

/-- When every listed column is in the schema, the missing-column scan
finds nothing. -/
theorem find?_not_memb_eq_none (schema : List String) :
    ∀ (l : List String), (∀ c ∈ l, c ∈ schema) →
      l.find? (fun c => !(memb c schema)) = none := by
  intro l
  induction l with
  | nil => intro _; rfl
  | cons x xs ih =>
    intro h
    have hx : memb x schema = true := memb_eq_true_iff.mpr (h x (List.mem_cons_self x xs))
    simp [List.find?_cons, hx, ih (fun c hc => h c (List.mem_cons_of_mem x hc))]

/-- A projected record binds each projected column to the stored value. -/
theorem lookupAssoc_projectRecord (r : Record) (c : String) :
    ∀ (cols : List String), c ∈ cols →
      lookupAssoc (projectRecord cols r) c = some (getVal r c) := by
  intro cols
  induction cols with
  | nil => intro h; exact absurd h (List.not_mem_nil c)
  | cons x xs ih =>
    intro h
    by_cases hx : x = c
    · have hb : (x == c) = true := beq_iff_eq.mpr hx
      simp [projectRecord, lookupAssoc, hb, hx]
    · have hb : (x == c) = false := beq_eq_false_iff_ne.mpr hx
      have hmem : c ∈ xs := by
        cases List.mem_cons.mp h with
        | inl he => exact absurd he.symm hx
        | inr hm => exact hm
      simpa [projectRecord, lookupAssoc, hb] using ih hmem

/-- Projection preserves stored values on projected columns. -/
theorem getVal_projectRecord (r : Record) (c : String) (cols : List String)
    (h : c ∈ cols) : getVal (projectRecord cols r) c = getVal r c := by
  simp [getVal, lookupAssoc_projectRecord r c cols h]

/-- The keys of a projected record are exactly the projected columns. -/
theorem projectRecord_keys (r : Record) (cols : List String) :
    (projectRecord cols r).map Prod.fst = cols := by
  induction cols with
  | nil => rfl
  | cons x xs ih =>
    simp only [projectRecord, List.map_cons] at ih ⊢
    rw [ih]

/-- An absent predicate filters nothing out. -/
theorem filter_rowMatches_none (l : List Record) :
    l.filter (fun r => rowMatches r none) = l :=
  List.filter_eq_self.mpr (fun _ _ => rfl)

/-- Limiting only selects from the original list. -/
theorem mem_of_mem_applyLimit {a : Record} {lim : Option Nat} {l : List Record}
    (h : a ∈ applyLimit lim l) : a ∈ l := by
  cases lim with
  | none => exact h
  | some n => exact List.mem_of_mem_take h

/-- Evaluation succeeds, with the filter-limit-project result, whenever the
table resolves and every referenced column is in its schema. -/
theorem evalQuery_eq_ok (e : Engine) (s : SelectStatement) (tbl : Table)
    (h1 : lookupTable e s.table = some tbl)
    (h2 : missingCol s tbl.columns = none) :
    evalQuery e s =
      .ok ((applyLimit s.limit (tbl.rows.filter (fun r => rowMatches r s.pred))).map
        (projectRecord (projCols s.proj tbl.columns))) := by
  simp [evalQuery, h1, h2]

/-- Inversion of a successful evaluation: the table resolved, the column
check passed, and the rows are the filter-limit-project of the stored
rows. -/
theorem evalQuery_ok_elim (e : Engine) (s : SelectStatement) (rows : List Record)
    (h : evalQuery e s = .ok rows) :
    ∃ tbl, lookupTable e s.table = some tbl ∧ missingCol s tbl.columns = none ∧
      rows = (applyLimit s.limit (tbl.rows.filter (fun r => rowMatches r s.pred))).map
        (projectRecord (projCols s.proj tbl.columns)) := by
  cases hlk : lookupTable e s.table with
  | none =>
    have he : evalQuery e s = .error ⟨.unknownTable, "Unknown table: " ++ s.table⟩ := by
      simp [evalQuery, hlk]
    rw [he] at h
    simp at h
  | some tbl =>
    cases hmc : missingCol s tbl.columns with
    | some c =>
      have he : evalQuery e s = .error ⟨.unknownColumn, "Unknown column: " ++ c⟩ := by
        simp [evalQuery, hlk, hmc]
      rw [he] at h
      simp at h
    | none =>
      have heq := evalQuery_eq_ok e s tbl hlk hmc
      rw [heq] at h
      simp only [Except.ok.injEq] at h
      exact ⟨tbl, rfl, hmc, h.symm⟩

/-- A single equality comparison evaluates to the section 4.1
disambiguation rule. -/
theorem rowMatches_single_eq (r : Record) (col : String) (v : Value) :
    rowMatches r (some [⟨col, .eq, v⟩]) =
      (match toNum (getVal r col), toNum v with
       | some a, some b => decide (a = b)
       | _, _ => valueStr (getVal r col) == valueStr v) := by
  simp only [rowMatches, List.all_cons, List.all_nil, Bool.and_true, condHolds, evalCmp]
  cases toNum (getVal r col) <;> cases toNum v <;> simp [numCmp, strCmp]

end EngineLemmas

section Claims

/-- Sample result data for concrete witnesses: two records with a comma, a
quote and a null among the values. -/
def sampleRows : List Record :=
  [[("id", Value.str "1"), ("name", Value.str "Al, \"pha\""), ("note", Value.null)],
   [("id", Value.str "2"), ("name", Value.str "Beta"), ("note", Value.str "ok")]]

/-- The spec's concrete scenario table `t1` with columns `[id, name, age]`
and rows Alice/25 and Bob/30. -/
def tableT1 : Table :=
  ⟨["id", "name", "age"],
   [[("id", Value.num 1), ("name", Value.str "Alice"), ("age", Value.num 25)],
    [("id", Value.num 2), ("name", Value.str "Bob"), ("age", Value.num 30)]]⟩

/-- An engine holding only `t1`. -/
def engineE1 : Engine := ⟨[("t1", tableT1)]⟩

/-- C1: for every non-empty sequence of result records, the exporter's CSV
serialization (`CSVExporter.convertToCSV`) equals the section 6 reference
serialization at delimiter `,`: header row of the first record's keys,
quote-wrapping exactly on delimiter/quote/line break with quote doubling,
empty string for null/undefined, and every row newline-terminated. -/
theorem csv_export_matches_reference (data : List Record) (hne : data ≠ []) :
    convertToCSV (some data) = refSerialize ',' data := by
  match data with
  | [] => exact absurd rfl hne
  | first :: rest =>
    have hcomma : String.mk [','] = "," := rfl
    simp only [convertToCSV, refSerialize, hcomma, formatCSVRow]
    rw [foldl_append_eq_join]
    simp only [refEscape_comma_eq_formatCSVValue]

/-- Witness for C1 at concrete two-record data containing a comma, a quote
and a null. -/
theorem csv_export_matches_reference_witness :
    sampleRows ≠ [] ∧ convertToCSV (some sampleRows) = refSerialize ',' sampleRows :=
  ⟨by decide, csv_export_matches_reference sampleRows (by decide)⟩

/-- C9: `CSVExporter.convertToCSV` returns the empty string without
throwing on null, undefined or empty input, while the user-facing
`CSVExporter.exportToCSV` on the same inputs throws an error whose message
contains `No data to export`. -/
theorem convertToCSV_total_exportToCSV_rejects_empty :
    convertToCSV none = "" ∧ convertToCSV (some ([] : List Record)) = "" ∧
    (∀ fn : String,
      exportToCSV none fn = .error "Export failed: No data to export" ∧
      exportToCSV (some []) fn = .error "Export failed: No data to export") ∧
    List.IsInfix "No data to export".data "Export failed: No data to export".data := by
  refine ⟨rfl, rfl, fun fn => ⟨rfl, rfl⟩, ?_⟩
  exact ⟨"Export failed: ".data, [], by decide⟩

end Claims

/-- C2: `SELECT * FROM t WHERE col = 'v'` returns exactly the rows whose
stored value of `col` equals the literal under the section 4.1
disambiguation rule (numeric when both sides parse as numbers, else
case-sensitive string comparison), as an order-preserving filter of the
stored rows - nothing dropped, nothing duplicated. -/
theorem select_where_eq_filters_by_rule (e : Engine) (t col : String)
    (v : Value) (tbl : Table)
    (h1 : lookupTable e t = some tbl) (h2 : col ∈ tbl.columns) :
    evalQuery e ⟨.star, t, some [⟨col, .eq, v⟩], none⟩ =
      .ok ((tbl.rows.filter (fun r =>
          match toNum (getVal r col), toNum v with
          | some a, some b => decide (a = b)
          | _, _ => valueStr (getVal r col) == valueStr v)).map
        (projectRecord tbl.columns)) := by
  have hmc : missingCol ⟨.star, t, some [⟨col, .eq, v⟩], none⟩ tbl.columns = none := by
    unfold missingCol
    apply find?_not_memb_eq_none
    intro c hc
    simp only [refCols, projList, predCols, List.map_cons, List.map_nil,
      List.nil_append, List.mem_singleton] at hc
    subst hc
    exact h2
  rw [evalQuery_eq_ok e _ tbl h1 hmc]
  simp only [applyLimit, projCols, rowMatches_single_eq]

/-- Witness for C2 on the spec's scenario table: `age = 25` keeps exactly
Alice's row. -/
theorem select_where_eq_filters_by_rule_witness :
    lookupTable engineE1 "t1" = some tableT1 ∧ "age" ∈ tableT1.columns ∧
    evalQuery engineE1 ⟨.star, "t1", some [⟨"age", .eq, .num 25⟩], none⟩ =
      .ok ((tableT1.rows.filter (fun r =>
          match toNum (getVal r "age"), toNum (Value.num 25) with
          | some a, some b => decide (a = b)
          | _, _ => valueStr (getVal r "age") == valueStr (Value.num 25))).map
        (projectRecord tableT1.columns)) :=
  ⟨rfl, by decide,
    select_where_eq_filters_by_rule engineE1 "t1" "age" (.num 25) tableT1 rfl (by decide)⟩

/-- C3: `LIMIT n` truncates after `WHERE` filtering - with or without a
predicate, the limited query returns the first `n` rows of the unlimited
result in original order; all of them when `n` is at least the filtered
count, and the empty sequence (success, not an error) when `n = 0`. -/
theorem select_limit_truncates_after_filter (e : Engine) (t : String) (tbl : Table)
    (pred : Option (List Condition)) (n : Nat)
    (h1 : lookupTable e t = some tbl)
    (h2 : ∀ c ∈ predCols pred, c ∈ tbl.columns) :
    ∃ rows, evalQuery e ⟨.star, t, pred, none⟩ = .ok rows ∧
      evalQuery e ⟨.star, t, pred, some n⟩ = .ok (rows.take n) ∧
      (n = 0 → rows.take n = []) ∧
      (rows.length ≤ n → rows.take n = rows) := by
  have hmc : ∀ lim : Option Nat,
      missingCol ⟨.star, t, pred, lim⟩ tbl.columns = none := by
    intro lim
    unfold missingCol
    apply find?_not_memb_eq_none
    intro c hc
    simp only [refCols, projList, List.nil_append] at hc
    exact h2 c hc
  refine ⟨((tbl.rows.filter (fun r => rowMatches r pred)).map (projectRecord tbl.columns)),
    ?_, ?_, ?_, ?_⟩
  · rw [evalQuery_eq_ok e _ tbl h1 (hmc none)]
    simp only [applyLimit, projCols]
  · rw [evalQuery_eq_ok e _ tbl h1 (hmc (some n))]
    simp only [applyLimit, projCols, List.map_take]
  · intro hz
    subst hz
    simp
  · intro hle
    exact List.take_of_length_le hle

/-- Witness for C3 on the scenario table with no predicate and `LIMIT 1`. -/
theorem select_limit_truncates_after_filter_witness :
    lookupTable engineE1 "t1" = some tableT1 ∧
    (∀ c ∈ predCols (none : Option (List Condition)), c ∈ tableT1.columns) ∧
    (∃ rows, evalQuery engineE1 ⟨.star, "t1", none, none⟩ = .ok rows ∧
      evalQuery engineE1 ⟨.star, "t1", none, some 1⟩ = .ok (rows.take 1) ∧
      (1 = 0 → rows.take 1 = []) ∧
      (rows.length ≤ 1 → rows.take 1 = rows)) :=
  ⟨rfl, by simp [predCols],
    select_limit_truncates_after_filter engineE1 "t1" tableT1 none 1 rfl (by simp [predCols])⟩

/-- C4: `SELECT * FROM t` returns one output record per stored row, in
stored order, each carrying every schema column with the stored row's
value. -/
theorem select_star_returns_all_rows (e : Engine) (t : String) (tbl : Table)
    (h : lookupTable e t = some tbl) :
    ∃ res, evalQuery e ⟨.star, t, none, none⟩ = .ok res ∧
      res = tbl.rows.map (projectRecord tbl.columns) ∧
      res.length = tbl.rows.length ∧
      (∀ r ∈ res, r.map Prod.fst = tbl.columns) ∧
      (∀ row ∈ tbl.rows, ∀ c ∈ tbl.columns,
        getVal (projectRecord tbl.columns row) c = getVal row c) := by
  refine ⟨tbl.rows.map (projectRecord tbl.columns), ?_, rfl, ?_, ?_, ?_⟩
  · rw [evalQuery_eq_ok e ⟨.star, t, none, none⟩ tbl h rfl]
    simp only [applyLimit, projCols, filter_rowMatches_none]
  · exact List.length_map tbl.rows _
  · intro r hr
    obtain ⟨row, _, rfl⟩ := List.mem_map.mp hr
    exact projectRecord_keys row tbl.columns
  · intro row _ c hc
    exact getVal_projectRecord row c tbl.columns hc

/-- Witness for C4 on the scenario table. -/
theorem select_star_returns_all_rows_witness :
    lookupTable engineE1 "t1" = some tableT1 ∧
    (∃ res, evalQuery engineE1 ⟨.star, "t1", none, none⟩ = .ok res ∧
      res = tableT1.rows.map (projectRecord tableT1.columns) ∧
      res.length = tableT1.rows.length ∧
      (∀ r ∈ res, r.map Prod.fst = tableT1.columns) ∧
      (∀ row ∈ tableT1.rows, ∀ c ∈ tableT1.columns,
        getVal (projectRecord tableT1.columns row) c = getVal row c)) :=
  ⟨rfl, select_star_returns_all_rows engineE1 "t1" tableT1 rfl⟩

/-- The scenario query `SELECT * FROM t1`. -/
def qStar : SelectStatement := ⟨.star, "t1", none, none⟩

/-- The records `SELECT * FROM t1` produces on `engineE1`. -/
def resultR1 : List Record :=
  [[("id", Value.num 1), ("name", Value.str "Alice"), ("age", Value.num 25)],
   [("id", Value.num 2), ("name", Value.str "Bob"), ("age", Value.num 30)]]

/-- C5: running any query - succeeding, failing or returning no rows -
leaves the engine state, the table registry and every stored row,
unchanged; moreover every returned record is a freshly constructed
projection of some stored row (a copy, not an alias), so a caller may sort
or mutate the returned sequence without affecting the engine. -/
theorem runQuery_frame_and_fresh_records (e : Engine) (s : SelectStatement) :
    (engStep e (.query s)).1 = e ∧
    ∀ rows, evalQuery e s = .ok rows → ∀ r ∈ rows,
      ∃ tbl src, lookupTable e s.table = some tbl ∧ src ∈ tbl.rows ∧
        r = projectRecord (projCols s.proj tbl.columns) src := by
  refine ⟨rfl, ?_⟩
  intro rows h1 r h2
  obtain ⟨tbl, hlk, hmc, hrows⟩ := evalQuery_ok_elim e s rows h1
  subst hrows
  obtain ⟨src, hsrc, rfl⟩ := List.mem_map.mp h2
  exact ⟨tbl, src, hlk, List.mem_of_mem_filter (mem_of_mem_applyLimit hsrc), rfl⟩

/-- Witness for C5: the concrete run of `SELECT * FROM t1`, whose records
the universally quantified conjunct then covers. -/
theorem runQuery_frame_and_fresh_records_witness :
    evalQuery engineE1 qStar = .ok resultR1 ∧
    ((engStep engineE1 (.query qStar)).1 = engineE1 ∧
      ∀ rows, evalQuery engineE1 qStar = .ok rows → ∀ r ∈ rows,
        ∃ tbl src, lookupTable engineE1 qStar.table = some tbl ∧ src ∈ tbl.rows ∧
          r = projectRecord (projCols qStar.proj tbl.columns) src) :=
  ⟨rfl, runQuery_frame_and_fresh_records engineE1 qStar⟩

/-- C6: a query against an unregistered table name fails with exactly the
`UnknownTable` error kind, its message names the missing table; in
particular a query after `dropTable` of that name fails the same way, and
the manager facade surfaces a message that still names the table. -/
theorem unknown_table_query_fails (e : Engine) (s : SelectStatement) :
    (lookupTable e s.table = none →
      evalQuery e s = .error ⟨.unknownTable, "Unknown table: " ++ s.table⟩) ∧
    evalQuery (dropTable e s.table) s =
      .error ⟨.unknownTable, "Unknown table: " ++ s.table⟩ ∧
    List.IsInfix s.table.data ("Unknown table: " ++ s.table).data ∧
    ∀ (m : Manager) (en : Engine), m.isInitialized = true → m.db = some en →
      lookupTable en s.table = none →
      mgrStep m (.runQuery s) =
        (m, .error ("SQL Error: " ++ ("Unknown table: " ++ s.table))) := by
  have herr : ∀ e' : Engine, lookupTable e' s.table = none →
      evalQuery e' s = .error ⟨.unknownTable, "Unknown table: " ++ s.table⟩ := by
    intro e' h
    simp [evalQuery, h]
  refine ⟨herr e, ?_, ?_, ?_⟩
  · exact herr _ (lookupAssoc_filter_self s.table e.tables)
  · exact ⟨"Unknown table: ".data, [], by simp [String.data_append]⟩
  · intro m en hinit hdb hlk
    simp [mgrStep, hinit, hdb, herr en hlk]

/-- C7: `dropTable` removes a registered name, silently does nothing for an
absent one, and is idempotent. -/
theorem dropTable_noop_idempotent (e : Engine) (n : String) :
    n ∉ listTables (dropTable e n) ∧
    (n ∉ listTables e → dropTable e n = e) ∧
    dropTable (dropTable e n) n = dropTable e n := by
  refine ⟨?_, ?_, ?_⟩
  · exact (lookupAssoc_eq_none_iff n _).mp (lookupAssoc_filter_self n e.tables)
  · intro h
    cases e with
    | mk ts =>
      simp only [listTables] at h
      simp only [dropTable, Engine.mk.injEq]
      exact filter_ne_of_not_mem n ts h
  · cases e with
    | mk ts =>
      simp only [dropTable, Engine.mk.injEq]
      exact filter_ne_idem n ts

/-- C8: after a valid `createTable` the name is listed and the row count is
the given row list's length; re-creating under the same name overwrites the
prior table without any error (the second row count reflects the
replacement). -/
theorem createTable_registers_and_overwrites (e : Engine) (n : String)
    (cols : List String) (rows rows2 : List Record)
    (h1 : n ≠ "") (h2 : cols ≠ []) (h3 : cols.Nodup) :
    n ∈ listTables (createTable e n cols rows) ∧
    getRowCount (createTable e n cols rows) n = .ok rows.length ∧
    getRowCount (createTable (createTable e n cols rows) n cols rows2) n =
      .ok rows2.length := by
  refine ⟨?_, ?_, ?_⟩
  · exact mem_keys_upsert n ⟨cols, rows⟩ e.tables
  · simp [getRowCount, lookupTable, createTable, lookupAssoc_upsert]
  · simp [getRowCount, lookupTable, createTable, lookupAssoc_upsert]

/-- Witness for C8: creating `t2` twice over `engineE1`. -/
theorem createTable_registers_and_overwrites_witness :
    "t2" ≠ "" ∧ ["a"] ≠ ([] : List String) ∧ (["a"] : List String).Nodup ∧
    ("t2" ∈ listTables (createTable engineE1 "t2" ["a"] sampleRows) ∧
      getRowCount (createTable engineE1 "t2" ["a"] sampleRows) "t2" =
        .ok sampleRows.length ∧
      getRowCount (createTable (createTable engineE1 "t2" ["a"] sampleRows) "t2" ["a"] [])
          "t2" = .ok (List.length ([] : List Record))) :=
  ⟨by decide, by decide, by decide,
    createTable_registers_and_overwrites engineE1 "t2" ["a"] sampleRows []
      (by decide) (by decide) (by decide)⟩

/-- C10: on an uninitialized manager every guarded operation (loadCSV,
runQuery, listTables, getRowCount, dropTable, getTableInfo) fails with
exactly the message `DuckDB not initialized` leaving the manager - db, conn
and isInitialized - unchanged, and no modelled operation ever turns the
isInitialized flag on. -/
theorem uninitialized_guard_and_flag_monotone (m : Manager) (op : MgrOp) :
    (m.isInitialized = false → guarded op = true →
      mgrStep m op = (m, .error "DuckDB not initialized")) ∧
    ((mgrStep m op).1.isInitialized = true → m.isInitialized = true) := by
  constructor
  · intro h hg
    cases op <;> simp [mgrStep, h] <;> simp [guarded] at hg
  · intro h
    cases hm : m.isInitialized with
    | true => rfl
    | false => cases op <;> simp [mgrStep, hm] at h
